import Mathlib

/-!
# Verification of the raster-loader record codec and orchestration

Shallow embedding of `raster_loader/io.py`. Pixel values are modelled as
their byte patterns (a `Nat` below `2^(8*itemsize)`), byte strings as
`List Nat` (each entry a byte), Python `str` as `String` (with the split
and upper-case helpers translated on the underlying character list),
Python floats as `ℚ` (idealized real arithmetic of the affine transform),
Python dicts with a fixed shape as structures. The JSON serialization of
the `attrs` dict is modelled as the identity (it is lossless for the
fields involved). External collaborators (the `pyproj` transformer, the
`rasterio` dataset) are parameters of the functions that invoke them.
-/

deriving instance DecidableEq for Except

/-- Supported numpy fixed-width numeric dtypes (the canonical ones a 2-D
numpy array used by this code can carry). -/
inductive NPDtype
  | uint8 | uint16 | uint32 | uint64
  | int8 | int16 | int32 | int64
  | float32 | float64
  deriving DecidableEq, Repr

/-- Size in bytes of one element, `np.dtype(...).itemsize`. -/
def NPDtype.itemsize : NPDtype → Nat
  | .uint8 => 1 | .uint16 => 2 | .uint32 => 4 | .uint64 => 8
  | .int8 => 1 | .int16 => 2 | .int32 => 4 | .int64 => 8
  | .float32 => 4 | .float64 => 8

/-- Canonical dtype name, `str(np.dtype(...))`. -/
def NPDtype.name : NPDtype → String
  | .uint8 => "uint8" | .uint16 => "uint16" | .uint32 => "uint32" | .uint64 => "uint64"
  | .int8 => "int8" | .int16 => "int16" | .int32 => "int32" | .int64 => "int64"
  | .float32 => "float32" | .float64 => "float64"

/-- `np.dtype(s)` on the canonical names; `none` models the `TypeError`
numpy raises on a token that does not name a numeric type. -/
def parseDtype : String → Option NPDtype
  | "uint8" => some .uint8 | "uint16" => some .uint16
  | "uint32" => some .uint32 | "uint64" => some .uint64
  | "int8" => some .int8 | "int16" => some .int16
  | "int32" => some .int32 | "int64" => some .int64
  | "float32" => some .float32 | "float64" => some .float64
  | _ => none

/-- A 2-D numpy array: dtype, shape `(height, width)`, and the rows of
element byte patterns. -/
structure NDArray2 where
  dtype : NPDtype
  height : Nat
  width : Nat
  data : List (List Nat)
  deriving DecidableEq, Repr

/-- Consistency of an `NDArray2` with its shape, guaranteed by numpy for
every real array: `height` rows, each of `width` elements, every element
a byte pattern of `itemsize` bytes. -/
def NDArray2.WellFormed (a : NDArray2) : Prop :=
  a.data.length = a.height ∧
  ∀ row ∈ a.data, row.length = a.width ∧ ∀ v ∈ row, v < 2 ^ (8 * a.dtype.itemsize)

instance (a : NDArray2) : Decidable a.WellFormed := by
  unfold NDArray2.WellFormed; infer_instance

/-- Little-endian byte encoding of one element pattern on `k` bytes
(native byte order of `arr.tobytes()`). -/
def natToBytes : Nat → Nat → List Nat
  | 0, _ => []
  | k + 1, n => n % 256 :: natToBytes k (n / 256)

/-- Inverse of `natToBytes`: read a little-endian byte list. -/
def bytesToNat : List Nat → Nat
  | [] => 0
  | b :: bs => b + 256 * bytesToNat bs

/-- Row-major serialization of the pixel block, `arr.tobytes()`. -/
def NDArray2.tobytes (a : NDArray2) : List Nat :=
  a.data.flatten.flatMap (natToBytes a.dtype.itemsize)

/-- Python's `s.split("_")` on the character list: always returns at least
one (possibly empty) token. -/
def splitU : List Char → List (List Char)
  | [] => [[]]
  | c :: rest =>
    if c = '_' then [] :: splitU rest
    else
      match splitU rest with
      | [] => [[c]]
      | t :: ts => (c :: t) :: ts

/-- Python's `s.split("_")[-1]`: the last underscore-delimited token. -/
def lastToken (s : String) : String :=
  String.mk ((splitU s.data).getLastD [])

/-- Python's `s.upper()` (ASCII part, which is all the code compares). -/
def upperStr (s : String) : String :=
  String.mk (s.data.map Char.toUpper)

/-- The six affine coefficients, `affine.Affine(a, b, c, d, e, f)`:
`x = a*col + b*row + c`, `y = d*col + e*row + f`. -/
structure Affine where
  a : ℚ
  b : ℚ
  c : ℚ
  d : ℚ
  e : ℚ
  f : ℚ
  deriving DecidableEq, Repr

/-- `transform * (x, y)`: apply the affine map to a pixel-space point,
returning world coordinates `(lon, lat)`. -/
def Affine.apply (t : Affine) (x y : ℚ) : ℚ × ℚ :=
  (t.a * x + t.b * y + t.c, t.d * x + t.e * y + t.f)

/-- `transform.to_gdal()`: the GDAL coefficient order `(c, a, b, f, d, e)`. -/
def Affine.to_gdal (t : Affine) : ℚ × ℚ × ℚ × ℚ × ℚ × ℚ :=
  (t.c, t.a, t.b, t.f, t.d, t.e)

/-- The side-channel `attrs` mapping (stored JSON-serialized in the real
record; the serialization is modelled as the identity). -/
structure Attrs where
  band : Int
  value_field : String
  dtype : String
  crs : String
  gdal_transform : ℚ × ℚ × ℚ × ℚ × ℚ × ℚ
  row_off : Int
  col_off : Int
  deriving DecidableEq, Repr

/-- A codec record: the eight corner coordinates, the block dimensions,
the serialized `attrs`, and the single dynamic entry (its key
`payload_key` and its byte-string value `payload`). -/
structure Record where
  lat_NW : ℚ
  lon_NW : ℚ
  lat_NE : ℚ
  lon_NE : ℚ
  lat_SE : ℚ
  lon_SE : ℚ
  lat_SW : ℚ
  lon_SW : ℚ
  block_height : Nat
  block_width : Nat
  attrs : Attrs
  payload_key : String
  payload : List Nat
  deriving DecidableEq, Repr

/-- Dictionary lookup `record[key]` restricted to the dynamic entry:
`some` exactly when `key` is the record's dynamic key. -/
def Record.getPayload (r : Record) (key : String) : Option (List Nat) :=
  if key = r.payload_key then some r.payload else none

/-- `array_to_record(arr, geotransform, row_off, col_off, value_field, crs, band)`
from `io.py`. -/
def array_to_record (arr : NDArray2) (geotransform : Affine)
    (row_off : Int) (col_off : Int) (value_field : String)
    (crs : String) (band : Int) : Record :=
  let height := arr.height
  let width := arr.width
  let pNW := geotransform.apply (col_off : ℚ) (row_off : ℚ)
  let pNE := geotransform.apply ((col_off : ℚ) + (width : ℚ)) (row_off : ℚ)
  let pSE := geotransform.apply ((col_off : ℚ) + (width : ℚ)) ((row_off : ℚ) + (height : ℚ))
  let pSW := geotransform.apply (col_off : ℚ) ((row_off : ℚ) + (height : ℚ))
  let dtype_str := arr.dtype.name
  let value_field2 := value_field ++ "_" ++ dtype_str
  { lat_NW := pNW.2, lon_NW := pNW.1
    lat_NE := pNE.2, lon_NE := pNE.1
    lat_SE := pSE.2, lon_SE := pSE.1
    lat_SW := pSW.2, lon_SW := pSW.1
    block_height := height
    block_width := width
    attrs :=
      { band := band
        value_field := value_field2
        dtype := dtype_str
        crs := crs
        gdal_transform := geotransform.to_gdal
        row_off := row_off
        col_off := col_off }
    payload_key := value_field2
    payload := arr.tobytes }

/-- Decode failures of `record_to_array`: the re-raised `TypeError` for an
unparseable dtype token, a missing dynamic key, and the numpy
`ValueError`s for a byte length inconsistent with dtype and shape
(the spec's `ShapeMismatchError`). -/
inductive DecodeError
  | invalidDtype (token : String)
  | keyError (key : String)
  | shapeMismatch
  deriving DecidableEq, Repr

/-- `reproject_record(record, src_crs, dst_crs)` from `io.py`, with the
`pyproj.Transformer.from_crs(src, dst).transform` call abstracted as the
parameter `T` (the same transformer function is rebuilt for each of the
four corners, so a single `T` is faithful). Each corner's `(lon, lat)` is
replaced by `T lon lat`; Python mutates the dict in place and returns it,
which the functional model renders as returning the updated record. -/
def reproject_record (T : ℚ → ℚ → ℚ × ℚ) (record : Record) : Record :=
  let qNW := T record.lon_NW record.lat_NW
  let qNE := T record.lon_NE record.lat_NE
  let qSW := T record.lon_SW record.lat_SW
  let qSE := T record.lon_SE record.lat_SE
  { record with
    lon_NW := qNW.1, lat_NW := qNW.2
    lon_NE := qNE.1, lat_NE := qNE.2
    lon_SW := qSW.1, lat_SW := qSW.2
    lon_SE := qSE.1, lat_SE := qSE.2 }

/-- The data the code reads from an opened `rasterio` dataset: the result
of `dataset.crs.to_string()`, the dataset transform, the block windows
(each a `(row_off, col_off)` pair), and the per-band window reader. -/
structure RasterDataset where
  crs_string : String
  transform : Affine
  windows : List (Int × Int)
  readBand : Int → Int × Int → NDArray2

/-- The error raised when no CRS can be determined (the
`ValueError("Unable to find valid input_crs.")` of `io.py`, the spec's
`MissingCRSError`). -/
inductive CRSError
  | missingCRS
  deriving DecidableEq, Repr

/-- `rasterio_windows_to_records(file_path, band, input_crs)` from
`io.py`, with the opened dataset `ds` and the reprojection engine
`reproj` (mapping a source CRS to the `pyproj` transformer towards
`EPSG:4326`) as parameters. The lazy generator is modelled as the list of
records it yields; the pre-loop CRS failure, raised before anything is
yielded, is the `Except` error case. -/
def rasterio_windows_to_records (ds : RasterDataset)
    (reproj : String → ℚ → ℚ → ℚ × ℚ) (band : Int)
    (input_crs : Option String) : Except CRSError (List Record) :=
  let raster_crs := ds.crs_string
  let crs := match input_crs with
    | none => raster_crs
    | some c => c
  if crs = "" then .error .missingCRS
  else .ok <| ds.windows.map fun w =>
    let r1 := array_to_record (ds.readBand band w) ds.transform w.1 w.2
      "band_1" crs band
    if upperStr crs ≠ "EPSG:4326" then reproject_record (reproj crs) r1 else r1

/-- The chunk-buffering loop of `rasterio_to_bigquery` (the
`chunk_size is not None` branch): accumulate records, flush to
`records_to_bigquery` whenever the buffer length reaches `chunk_size`,
and flush a non-empty remainder at the end. Returns the list of uploaded
batches, in upload order. -/
def chunkLoop (chunk_size : Nat) : List Record → List Record → List (List Record)
  | buf, [] => if buf.isEmpty then [] else [buf]
  | buf, r :: rest =>
    let buf2 := buf ++ [r]
    if chunk_size ≤ buf2.length then buf2 :: chunkLoop chunk_size [] rest
    else chunkLoop chunk_size buf2 rest

/-- The sequence of upload calls `rasterio_to_bigquery` issues for a given
finite record source when `chunk_size` is specified: the chunk loop
started with an empty buffer. -/
def rasterio_to_bigquery_uploads (chunk_size : Nat) (records : List Record) :
    List (List Record) :=
  chunkLoop chunk_size [] records

/-- Direct chunking of a list into `k`-sized pieces (reference definition
the buffering loop is proved equal to). -/
def chunksOf (k : Nat) (l : List Record) : List (List Record) :=
  if h : l = [] ∨ k = 0 then []
  else l.take k :: chunksOf k (l.drop k)
termination_by l.length
decreasing_by
  push_neg at h
  have hb := List.length_pos.mpr h.1
  simp only [List.length_drop]
  omega

/-- Worker for `np.frombuffer`: split the byte list into `itemsize`-byte
little-endian elements, with a structural fuel bounding the number of
elements (the byte length always suffices). -/
def frombufferGo (k : Nat) : Nat → List Nat → List Nat
  | _, [] => []
  | 0, _ => []
  | fuel + 1, bytes => bytesToNat (bytes.take k) :: frombufferGo k fuel (bytes.drop k)

/-- `np.frombuffer(bytes, dtype)` element extraction (callers check
divisibility first, as numpy does). -/
def frombufferElems (k : Nat) (bytes : List Nat) : List Nat :=
  frombufferGo k bytes.length bytes

/-- `arr.reshape((h, w))` on an element list of the right length: `h`
successive rows of `w` elements. -/
def reshape2 : Nat → Nat → List Nat → List (List Nat)
  | 0, _, _ => []
  | h + 1, w, flat => flat.take w :: reshape2 h w (flat.drop w)

/-- `record_to_array(record, value_field)` from `io.py`. -/
def record_to_array (record : Record) (value_field : Option String) :
    Except DecodeError NDArray2 :=
  let field := value_field.getD record.attrs.value_field
  let token := lastToken field
  match parseDtype token with
  | none => .error (.invalidDtype token)
  | some dtype =>
    match record.getPayload field with
    | none => .error (.keyError field)
    | some payload =>
      if payload.length % dtype.itemsize ≠ 0 then .error .shapeMismatch
      else
        let flat := frombufferElems dtype.itemsize payload
        if flat.length ≠ record.block_height * record.block_width then
          .error .shapeMismatch
        else
          .ok { dtype := dtype
                height := record.block_height
                width := record.block_width
                data := reshape2 record.block_height record.block_width flat }

/-- The identity affine transform `Affine.identity()` (determinant 1,
hence invertible), used as a concrete instance. -/
def idAffine : Affine := ⟨1, 0, 0, 0, 1, 0⟩

/-- A concrete well-formed 2x2 `uint8` block. -/
def sampleArray : NDArray2 := ⟨.uint8, 2, 2, [[1, 2], [3, 255]]⟩

/-- The record encoding `sampleArray` with the default arguments. -/
def sampleRecord : Record :=
  array_to_record sampleArray idAffine 0 0 "band_1" "EPSG:4326" 1

/-- The spec's decode-failure scenario: `block_height = 2`,
`block_width = 2`, dtype `int16`, but a payload of only 3 bytes. -/
def shortPayloadRecord : Record :=
  { lat_NW := 0, lon_NW := 0, lat_NE := 0, lon_NE := 0
    lat_SE := 0, lon_SE := 0, lat_SW := 0, lon_SW := 0
    block_height := 2, block_width := 2
    attrs :=
      { band := 1, value_field := "band_1_int16", dtype := "int16"
        crs := "EPSG:4326", gdal_transform := idAffine.to_gdal
        row_off := 0, col_off := 0 }
    payload_key := "band_1_int16"
    payload := [0, 0, 0] }

/-- A record whose payload length (2 bytes) is a strict multiple of
`block_height * block_width * itemsize = 1`: `1x1` `uint8` with two
payload bytes. -/
def doublePayloadRecord : Record :=
  { lat_NW := 0, lon_NW := 0, lat_NE := 0, lon_NE := 0
    lat_SE := 0, lon_SE := 0, lat_SW := 0, lon_SW := 0
    block_height := 1, block_width := 1
    attrs :=
      { band := 1, value_field := "band_1_uint8", dtype := "uint8"
        crs := "EPSG:4326", gdal_transform := idAffine.to_gdal
        row_off := 0, col_off := 0 }
    payload_key := "band_1_uint8"
    payload := [7, 7] }

/-- A concrete dataset whose `crs.to_string()` result is empty (no CRS
determinable from the raster). -/
def noCRSDataset : RasterDataset :=
  { crs_string := ""
    transform := idAffine
    windows := [(0, 0)]
    readBand := fun _ _ => sampleArray }

/-- A concrete dataset carrying a lower-case canonical CRS string. -/
def lowerCRSDataset : RasterDataset :=
  { crs_string := "epsg:4326"
    transform := idAffine
    windows := [(0, 0), (0, 2)]
    readBand := fun _ _ => sampleArray }

/-- A concrete stand-in for the external reprojection engine. -/
def sampleReproj : String → ℚ → ℚ → ℚ × ℚ := fun _ x y => (x + 1, y - 1)

/-! ## Byte-codec lemmas -/

theorem natToBytes_length (k n : Nat) : (natToBytes k n).length = k := by
  induction k generalizing n with
  | zero => rfl
  | succ k ih => simp [natToBytes, ih]

theorem bytesToNat_natToBytes (k n : Nat) (h : n < 2 ^ (8 * k)) :
    bytesToNat (natToBytes k n) = n := by
  induction k generalizing n with
  | zero =>
    simp only [Nat.mul_zero, pow_zero, Nat.lt_one_iff] at h
    simp [h, natToBytes, bytesToNat]
  | succ k ih =>
    have hpow : (2 : Nat) ^ (8 * (k + 1)) = 2 ^ (8 * k) * 256 := by
      rw [show 8 * (k + 1) = 8 * k + 8 by ring, pow_add]
      norm_num
    have hdiv : n / 256 < 2 ^ (8 * k) := by
      rw [Nat.div_lt_iff_lt_mul (by norm_num : 0 < 256)]
      rw [hpow] at h
      exact h
    simp only [natToBytes, bytesToNat, ih (n / 256) hdiv]
    exact Nat.mod_add_div n 256

theorem itemsize_pos (d : NPDtype) : 0 < d.itemsize := by
  cases d <;> decide

theorem frombufferGo_nil (k f : Nat) : frombufferGo k f [] = [] := by
  cases f <;> rfl

theorem frombufferGo_fuel (k : Nat) (hk : k ≠ 0) :
    ∀ (f1 f2 : Nat) (bytes : List Nat), bytes.length ≤ f1 → bytes.length ≤ f2 →
      frombufferGo k f1 bytes = frombufferGo k f2 bytes := by
  intro f1
  induction f1 with
  | zero =>
    intro f2 bytes h1 h2
    have : bytes = [] := List.length_eq_zero.mp (by omega)
    subst this
    rw [frombufferGo_nil, frombufferGo_nil]
  | succ f ih =>
    intro f2 bytes h1 h2
    cases bytes with
    | nil => rw [frombufferGo_nil, frombufferGo_nil]
    | cons b bs =>
      cases f2 with
      | zero => simp at h2
      | succ f2 =>
        show bytesToNat ((b :: bs).take k) :: frombufferGo k f ((b :: bs).drop k)
          = bytesToNat ((b :: bs).take k) :: frombufferGo k f2 ((b :: bs).drop k)
        have hd : ((b :: bs).drop k).length ≤ f := by
          simp only [List.length_drop, List.length_cons] at *
          omega
        have hd2 : ((b :: bs).drop k).length ≤ f2 := by
          simp only [List.length_drop, List.length_cons] at *
          omega
        rw [ih _ _ hd hd2]

theorem frombufferElems_nil (k : Nat) : frombufferElems k [] = [] := rfl

theorem frombufferElems_append (k : Nat) (hk : k ≠ 0) (a b : List Nat)
    (ha : a.length = k) :
    frombufferElems k (a ++ b) = bytesToNat a :: frombufferElems k b := by
  cases a with
  | nil => rw [← ha] at hk; simp at hk
  | cons x a' =>
    show frombufferGo k ((x :: a') ++ b).length ((x :: a') ++ b) = _
    have hlen : ((x :: a') ++ b).length = (a'.length + b.length) + 1 := by
      simp only [List.length_append, List.length_cons]
      omega
    rw [hlen]
    show bytesToNat (((x :: a') ++ b).take k)
        :: frombufferGo k (a'.length + b.length) (((x :: a') ++ b).drop k)
      = bytesToNat (x :: a') :: frombufferElems k b
    rw [List.take_left' ha, List.drop_left' ha]
    unfold frombufferElems
    rw [frombufferGo_fuel k hk (a'.length + b.length) b.length b (by omega) le_rfl]

theorem frombufferElems_flatMap (k : Nat) (hk : k ≠ 0) (xs : List Nat)
    (hx : ∀ x ∈ xs, x < 2 ^ (8 * k)) :
    frombufferElems k (xs.flatMap (natToBytes k)) = xs := by
  induction xs with
  | nil => simp [frombufferElems_nil]
  | cons x xs ih =>
    rw [List.flatMap_cons,
      frombufferElems_append k hk _ _ (natToBytes_length k x),
      bytesToNat_natToBytes k x (hx x (List.mem_cons_self x xs)),
      ih (fun y hy => hx y (List.mem_cons_of_mem x hy))]

theorem frombufferElems_length (k : Nat) (hk : k ≠ 0) (bytes : List Nat)
    (hd : k ∣ bytes.length) :
    (frombufferElems k bytes).length = bytes.length / k := by
  have H : ∀ (n : Nat) (bytes : List Nat), bytes.length = n → k ∣ n →
      (frombufferElems k bytes).length = n / k := by
    intro n
    induction n using Nat.strong_induction_on with
    | _ n ih =>
      intro bytes hlen hdn
      by_cases h0 : n = 0
      · subst h0
        have : bytes = [] := List.length_eq_zero.mp hlen
        subst this
        rw [frombufferElems_nil]
        simp
      · have hkn : k ≤ n := Nat.le_of_dvd (by omega) hdn
        have hsplit : bytes = bytes.take k ++ bytes.drop k :=
          (List.take_append_drop k bytes).symm
        have htk : (bytes.take k).length = k := by
          rw [List.length_take]
          omega
        rw [hsplit, frombufferElems_append k hk _ _ htk, List.length_cons]
        have hdroplen : (bytes.drop k).length = n - k := by
          rw [List.length_drop, hlen]
        rw [ih (n - k) (by omega) _ hdroplen
          (by rw [← hdroplen, List.length_drop, hlen]; exact Nat.dvd_sub' hdn dvd_rfl)]
        have h1 : n = (n - k) + k := by omega
        conv_rhs => rw [h1, Nat.add_div_right _ (by omega : 0 < k)]
  exact H bytes.length bytes rfl hd

theorem flatMap_natToBytes_length (k : Nat) (xs : List Nat) :
    (xs.flatMap (natToBytes k)).length = xs.length * k := by
  induction xs with
  | nil => simp
  | cons x xs ih =>
    simp [List.flatMap_cons, natToBytes_length, ih, Nat.succ_mul, Nat.add_comm]

theorem flatten_length_of_widths {w : Nat} (rows : List (List Nat))
    (h : ∀ row ∈ rows, row.length = w) :
    rows.flatten.length = rows.length * w := by
  induction rows with
  | nil => simp
  | cons row rows ih =>
    simp only [List.flatten_cons, List.length_append, List.length_cons,
      h row (List.mem_cons_self row rows),
      ih (fun r hr => h r (List.mem_cons_of_mem row hr))]
    ring

theorem reshape2_flatten {w : Nat} (rows : List (List Nat))
    (h : ∀ row ∈ rows, row.length = w) :
    reshape2 rows.length w rows.flatten = rows := by
  induction rows with
  | nil => rfl
  | cons row rows ih =>
    simp only [List.length_cons, List.flatten_cons, reshape2,
      List.take_left' (h row (List.mem_cons_self row rows)),
      List.drop_left' (h row (List.mem_cons_self row rows)),
      ih (fun r hr => h r (List.mem_cons_of_mem row hr))]

/-! ## Split and string helpers -/

theorem splitU_ne_nil (l : List Char) : splitU l ≠ [] := by
  cases l with
  | nil => simp [splitU]
  | cons c rest =>
    simp only [splitU]
    split
    · simp
    · cases splitU rest <;> simp

theorem two_le_splitU_length (l : List Char) (h : '_' ∈ l) :
    2 ≤ (splitU l).length := by
  induction l with
  | nil => simp at h
  | cons c rest ih =>
    by_cases hc : c = '_'
    · have h1 : splitU rest ≠ [] := splitU_ne_nil rest
      have h2 : 1 ≤ (splitU rest).length := List.length_pos.mpr h1
      simp only [splitU, if_pos hc, List.length_cons]
      omega
    · have hr : '_' ∈ rest := by
        rcases List.mem_cons.mp h with h' | h'
        · exact absurd h'.symm hc
        · exact h'
      have h2 := ih hr
      simp only [splitU, if_neg hc]
      cases hsr : splitU rest with
      | nil => exact absurd hsr (splitU_ne_nil rest)
      | cons t ts =>
        rw [hsr] at h2
        simp only [List.length_cons] at h2 ⊢
        omega

theorem getLastD_irrel {α : Type} (l : List α) (d d' : α) (h : l ≠ []) :
    l.getLastD d = l.getLastD d' := by
  cases l with
  | nil => exact absurd rfl h
  | cons a l => simp only [List.getLastD_cons]

theorem splitU_getLastD (s t : List Char) :
    (splitU (s ++ '_' :: t)).getLastD [] = (splitU t).getLastD [] := by
  induction s with
  | nil =>
    show (splitU ('_' :: t)).getLastD [] = (splitU t).getLastD []
    rw [show splitU ('_' :: t) = [] :: splitU t from by simp [splitU]]
    rw [List.getLastD_cons]
  | cons c s ih =>
    simp only [List.cons_append, splitU]
    by_cases hc : c = '_'
    · rw [if_pos hc, List.getLastD_cons]
      exact ih
    · rw [if_neg hc]
      cases hsr : splitU (s ++ '_' :: t) with
      | nil => exact absurd hsr (splitU_ne_nil _)
      | cons t0 ts =>
        have h2 : 2 ≤ (splitU (s ++ '_' :: t)).length :=
          two_le_splitU_length _ (by simp)
        rw [hsr] at h2
        simp only [List.length_cons] at h2
        have hts : ts ≠ [] := by
          intro hn
          rw [hn] at h2
          simp at h2
        have hih := ih
        rw [hsr, List.getLastD_cons] at hih
        rw [List.getLastD_cons, getLastD_irrel ts (c :: t0) t0 hts]
        exact hih

theorem lastToken_append (s t : String) :
    lastToken (s ++ "_" ++ t) = lastToken t := by
  unfold lastToken
  have hd : (s ++ "_" ++ t).data = s.data ++ '_' :: t.data := by
    simp [String.data_append]
  rw [hd, splitU_getLastD]

theorem lastToken_name (d : NPDtype) : lastToken d.name = d.name := by
  cases d <;> rfl

theorem parseDtype_name (d : NPDtype) : parseDtype d.name = some d := by
  cases d <;> rfl

theorem mk_data (s : String) : String.mk s.data = s := rfl

/-! ## Round-trip of the codec -/

theorem tobytes_length (arr : NDArray2) (h : arr.WellFormed) :
    arr.tobytes.length = arr.height * arr.width * arr.dtype.itemsize := by
  obtain ⟨hlen, hrows⟩ := h
  unfold NDArray2.tobytes
  rw [flatMap_natToBytes_length,
    flatten_length_of_widths arr.data (fun row hrow => (hrows row hrow).1), hlen]

theorem record_to_array_array_to_record (arr : NDArray2) (t : Affine)
    (r c : Int) (f crs : String) (b : Int) (h : arr.WellFormed) :
    record_to_array (array_to_record arr t r c f crs b) none = .ok arr := by
  have hk := itemsize_pos arr.dtype
  have hbytes := tobytes_length arr h
  obtain ⟨hlen, hrows⟩ := h
  have htok : lastToken (f ++ "_" ++ arr.dtype.name) = arr.dtype.name := by
    rw [lastToken_append, lastToken_name]
  have hflat : frombufferElems arr.dtype.itemsize arr.tobytes = arr.data.flatten := by
    unfold NDArray2.tobytes
    refine frombufferElems_flatMap _ (Nat.pos_iff_ne_zero.mp hk) _ ?_
    intro x hx
    rcases List.mem_flatten.mp hx with ⟨row, hrow, hxrow⟩
    exact (hrows row hrow).2 x hxrow
  have hflatlen : arr.data.flatten.length = arr.height * arr.width := by
    rw [flatten_length_of_widths arr.data (fun row hrow => (hrows row hrow).1), hlen]
  have hmod : arr.tobytes.length % arr.dtype.itemsize = 0 := by
    rw [hbytes]
    exact Nat.mul_mod_left _ _
  unfold record_to_array
  simp only [Option.getD_none]
  rw [show (array_to_record arr t r c f crs b).attrs.value_field
      = f ++ "_" ++ arr.dtype.name from rfl, htok, parseDtype_name]
  simp only []
  rw [show (array_to_record arr t r c f crs b).getPayload (f ++ "_" ++ arr.dtype.name)
      = some arr.tobytes from by
    unfold Record.getPayload
    rw [show (array_to_record arr t r c f crs b).payload_key
        = f ++ "_" ++ arr.dtype.name from rfl, if_pos rfl]
    rfl]
  simp only []
  rw [if_neg (by simp [hmod])]
  rw [show (array_to_record arr t r c f crs b).block_height = arr.height from rfl,
    show (array_to_record arr t r c f crs b).block_width = arr.width from rfl,
    hflat]
  rw [if_neg (by simp [hflatlen])]
  rw [show arr.height = arr.data.length from hlen.symm,
    reshape2_flatten arr.data (fun row hrow => (hrows row hrow).1)]
  obtain ⟨dt, ht, wd, rows⟩ := arr
  simp only at hlen
  rw [hlen]

/-! ## Chunking lemmas -/

theorem chunkLoop_eq_chunksOf (k : Nat) (hk : 0 < k) (l : List Record) :
    ∀ buf : List Record, buf.length < k → chunkLoop k buf l = chunksOf k (buf ++ l) := by
  induction l with
  | nil =>
    intro buf hbuf
    rw [List.append_nil]
    by_cases hb : buf = []
    · subst hb
      rw [show chunkLoop k [] [] = [] from rfl, chunksOf, dif_pos (Or.inl rfl)]
    · rw [show chunkLoop k buf [] = if buf.isEmpty then [] else [buf] from rfl]
      rw [if_neg (by simpa [List.isEmpty_iff] using hb)]
      rw [chunksOf, dif_neg (by push_neg; exact ⟨hb, by omega⟩)]
      rw [List.take_of_length_le (le_of_lt hbuf),
        List.drop_eq_nil_iff.mpr (le_of_lt hbuf),
        chunksOf, dif_pos (Or.inl rfl)]
  | cons a l ih =>
    intro buf hbuf
    rw [show chunkLoop k buf (a :: l)
        = if k ≤ (buf ++ [a]).length then (buf ++ [a]) :: chunkLoop k [] l
          else chunkLoop k (buf ++ [a]) l from rfl]
    have hsplit : buf ++ a :: l = (buf ++ [a]) ++ l := by simp
    by_cases hfull : k ≤ (buf ++ [a]).length
    · have hlen2 : (buf ++ [a]).length = k := by
        simp only [List.length_append, List.length_cons, List.length_nil] at hfull ⊢
        omega
      have hne : ¬((buf ++ [a]) ++ l = [] ∨ k = 0) := by
        push_neg
        refine ⟨fun h0 => ?_, by omega⟩
        have := congrArg List.length h0
        simp only [List.length_append, List.length_cons, List.length_nil] at this
        omega
      rw [if_pos hfull, ih [] (by simpa using hk), List.nil_append]
      conv_rhs => rw [hsplit, chunksOf, dif_neg hne,
        List.take_left' hlen2, List.drop_left' hlen2]
    · have hlt : (buf ++ [a]).length < k := by omega
      rw [if_neg hfull, ih (buf ++ [a]) hlt, hsplit]

theorem chunksOf_length (k : Nat) (hk : 0 < k) (l : List Record) :
    (chunksOf k l).length = (l.length + k - 1) / k := by
  induction l using chunksOf.induct k with
  | case1 l h =>
    have hl : l = [] := by
      rcases h with h | h
      · exact h
      · omega
    subst hl
    rw [chunksOf, dif_pos (Or.inl rfl)]
    simp only [List.length_nil, Nat.zero_add]
    exact (Nat.div_eq_of_lt (by omega)).symm
  | case2 l h ih =>
    rw [chunksOf, dif_neg h]
    push_neg at h
    simp only [List.length_cons, ih, List.length_drop]
    by_cases hlk : k ≤ l.length
    · have h1 : l.length + k - 1 = (l.length - 1) + k := by omega
      have h2 : l.length - k + k - 1 = l.length - 1 := by omega
      rw [h1, h2, Nat.add_div_right _ hk]
    · have hN : 1 ≤ l.length := List.length_pos.mpr h.1
      have hl0 : l.length - k = 0 := by omega
      rw [hl0, Nat.zero_add]
      rw [Nat.div_eq_of_lt (by omega : k - 1 < k)]
      rw [Nat.div_eq_of_lt_le (by omega : 1 * k ≤ l.length + k - 1)
        (by omega : l.length + k - 1 < (1 + 1) * k)]

theorem chunksOf_getD (k : Nat) (hk : 0 < k) (l : List Record) :
    ∀ i, i + 1 < (chunksOf k l).length → ((chunksOf k l).getD i []).length = k := by
  induction l using chunksOf.induct k with
  | case1 l h =>
    intro i hi
    rw [chunksOf, dif_pos h] at hi
    simp at hi
  | case2 l h ih =>
    intro i hi
    rw [chunksOf, dif_neg h] at hi ⊢
    cases i with
    | zero =>
      have hne : chunksOf k (l.drop k) ≠ [] := by
        intro h0
        rw [List.length_cons, h0] at hi
        simp at hi
      have hdrop : l.drop k ≠ [] := by
        intro h0
        rw [chunksOf, dif_pos (Or.inl h0)] at hne
        exact hne rfl
      have hklt : k < l.length := by
        by_contra hle
        push_neg at hle
        exact hdrop (List.drop_eq_nil_iff.mpr hle)
      simp only [List.getD_cons_zero, List.length_take]
      omega
    | succ i =>
      simp only [List.getD_cons_succ]
      refine ih i ?_
      simpa using hi

theorem chunksOf_getLastD (k : Nat) (hk : 0 < k) (l : List Record) :
    l ≠ [] →
    ((chunksOf k l).getLastD []).length
      = if l.length % k = 0 then k else l.length % k := by
  induction l using chunksOf.induct k with
  | case1 l h =>
    intro hne
    rcases h with h | h
    · exact absurd h hne
    · omega
  | case2 l h ih =>
    intro hne
    rw [chunksOf, dif_neg h]
    push_neg at h
    by_cases hrest : l.drop k = []
    · have hchunks : chunksOf k (l.drop k) = [] := by
        rw [chunksOf, dif_pos (Or.inl hrest)]
      have hlk : l.length ≤ k := List.drop_eq_nil_iff.mp hrest
      have hlpos : 0 < l.length := List.length_pos.mpr h.1
      rw [hchunks]
      simp only [List.getLastD_cons, List.getLastD_nil, List.length_take]
      by_cases heq : l.length = k
      · rw [heq, if_pos (Nat.mod_self k)]
        omega
      · have hlt : l.length < k := lt_of_le_of_ne hlk heq
        rw [Nat.mod_eq_of_lt hlt, if_neg (by omega)]
        omega
    · have hchne : chunksOf k (l.drop k) ≠ [] := by
        rw [chunksOf, dif_neg (by push_neg; exact ⟨hrest, h.2⟩)]
        simp
      have hk_lt : k < l.length := by
        by_contra hle
        push_neg at hle
        exact hrest (List.drop_eq_nil_iff.mpr hle)
      rw [List.getLastD_cons, getLastD_irrel _ _ [] hchne, ih hrest,
        List.length_drop]
      have hmm : l.length % k = (l.length - k) % k := by
        conv_lhs => rw [show l.length = (l.length - k) + k from by omega]
        rw [Nat.add_mod_right]
      rw [hmm]

/-! ## Claim theorems -/

/-- C1: for every 2-D array of a supported fixed-width numeric dtype and
every invertible affine transform, `record_to_array` applied to the
record produced by `array_to_record`, with no explicit field name,
returns an array element-wise equal to the input (the reprojector never
touches the payload, so the unreprojected record decodes exactly). -/
theorem C1_roundtrip (arr : NDArray2) (t : Affine) (row_off col_off : Int)
    (value_field crs : String) (band : Int)
    (hwf : arr.WellFormed) (hinv : t.a * t.e - t.b * t.d ≠ 0) :
    record_to_array (array_to_record arr t row_off col_off value_field crs band) none
      = .ok arr :=
  record_to_array_array_to_record arr t row_off col_off value_field crs band hwf

/-- Witness for C1 at a concrete well-formed `uint8` block and the
(invertible) identity transform. -/
theorem C1_roundtrip_witness :
    record_to_array
      (array_to_record sampleArray idAffine 0 0 "band_1" "EPSG:4326" 1) none
      = .ok sampleArray :=
  C1_roundtrip sampleArray idAffine 0 0 "band_1" "EPSG:4326" 1
    (by decide) (by simp [idAffine])

/-- C2: the four corner coordinates of the produced record equal the
transform applied to the pixel-space points `(c, r)`, `(c+w, r)`,
`(c+w, r+h)`, `(c, r+h)`, stored under the NW, NE, SE, SW labels
respectively, each as a `(lon, lat)` pair. -/
theorem C2_corners (arr : NDArray2) (t : Affine) (row_off col_off : Int)
    (value_field crs : String) (band : Int) :
    ((array_to_record arr t row_off col_off value_field crs band).lon_NW,
      (array_to_record arr t row_off col_off value_field crs band).lat_NW)
        = t.apply (col_off : ℚ) (row_off : ℚ)
    ∧ ((array_to_record arr t row_off col_off value_field crs band).lon_NE,
      (array_to_record arr t row_off col_off value_field crs band).lat_NE)
        = t.apply ((col_off : ℚ) + (arr.width : ℚ)) (row_off : ℚ)
    ∧ ((array_to_record arr t row_off col_off value_field crs band).lon_SE,
      (array_to_record arr t row_off col_off value_field crs band).lat_SE)
        = t.apply ((col_off : ℚ) + (arr.width : ℚ)) ((row_off : ℚ) + (arr.height : ℚ))
    ∧ ((array_to_record arr t row_off col_off value_field crs band).lon_SW,
      (array_to_record arr t row_off col_off value_field crs band).lat_SW)
        = t.apply (col_off : ℚ) ((row_off : ℚ) + (arr.height : ℚ)) :=
  ⟨rfl, rfl, rfl, rfl⟩

/-- C3 counterexample: at a concrete encoded record the `value_field`
entry of `attrs` equals the full dynamic payload key `"band_1_uint8"`,
dtype suffix included, not the key minus the suffix (`"band_1"`). -/
theorem C3_counterexample :
    sampleRecord.payload_key = "band_1_uint8"
    ∧ lastToken sampleRecord.payload_key = "uint8"
    ∧ sampleRecord.attrs.value_field = "band_1_uint8"
    ∧ sampleRecord.attrs.value_field ≠ "band_1" := by
  refine ⟨by decide, by decide, by decide, by decide⟩

/-- C3 (amended): the `value_field` entry inside the serialized `attrs`
mapping equals the record's dynamic payload key itself, the trailing
dtype suffix included (the code rebinds `value_field` to the suffixed
name before building `attrs`). -/
theorem C3_amended (arr : NDArray2) (t : Affine) (row_off col_off : Int)
    (value_field crs : String) (band : Int) :
    (array_to_record arr t row_off col_off value_field crs band).attrs.value_field
      = (array_to_record arr t row_off col_off value_field crs band).payload_key :=
  rfl

/-- C4: the dynamic payload key of an encoded record equals the base
field name, an underscore, and the dtype name; the dynamic-entry lookup
at the key named by `attrs.value_field` finds the payload; and decoding
without an explicit field name succeeds on every encoded record. -/
theorem C4_field_naming (arr : NDArray2) (t : Affine) (row_off col_off : Int)
    (value_field crs : String) (band : Int) (hwf : arr.WellFormed) :
    (array_to_record arr t row_off col_off value_field crs band).payload_key
        = value_field ++ "_" ++ arr.dtype.name
    ∧ (array_to_record arr t row_off col_off value_field crs band).getPayload
        (array_to_record arr t row_off col_off value_field crs band).attrs.value_field
        = some (array_to_record arr t row_off col_off value_field crs band).payload
    ∧ record_to_array (array_to_record arr t row_off col_off value_field crs band) none
        = .ok arr := by
  refine ⟨rfl, ?_,
    record_to_array_array_to_record arr t row_off col_off value_field crs band hwf⟩
  unfold Record.getPayload
  rw [if_pos (show (array_to_record arr t row_off col_off value_field crs band).attrs.value_field
    = (array_to_record arr t row_off col_off value_field crs band).payload_key from rfl)]

/-- Witness for C4 at a concrete well-formed `uint8` block. -/
theorem C4_field_naming_witness :
    (array_to_record sampleArray idAffine 0 0 "band_1" "EPSG:4326" 1).payload_key
        = "band_1" ++ "_" ++ sampleArray.dtype.name
    ∧ (array_to_record sampleArray idAffine 0 0 "band_1" "EPSG:4326" 1).getPayload
        (array_to_record sampleArray idAffine 0 0 "band_1" "EPSG:4326" 1).attrs.value_field
        = some (array_to_record sampleArray idAffine 0 0 "band_1" "EPSG:4326" 1).payload
    ∧ record_to_array (array_to_record sampleArray idAffine 0 0 "band_1" "EPSG:4326" 1) none
        = .ok sampleArray :=
  C4_field_naming sampleArray idAffine 0 0 "band_1" "EPSG:4326" 1 (by decide)

/-- C6: the payload of every encoded record has byte length
`block_height * block_width * itemsize(dtype)`. -/
theorem C6_payload_length (arr : NDArray2) (t : Affine) (row_off col_off : Int)
    (value_field crs : String) (band : Int) (hwf : arr.WellFormed) :
    (array_to_record arr t row_off col_off value_field crs band).payload.length
      = (array_to_record arr t row_off col_off value_field crs band).block_height
        * (array_to_record arr t row_off col_off value_field crs band).block_width
        * arr.dtype.itemsize :=
  tobytes_length arr hwf

/-- Witness for C6 at a concrete well-formed `uint8` block. -/
theorem C6_payload_length_witness :
    (array_to_record sampleArray idAffine 0 0 "band_1" "EPSG:4326" 1).payload.length
      = (array_to_record sampleArray idAffine 0 0 "band_1" "EPSG:4326" 1).block_height
        * (array_to_record sampleArray idAffine 0 0 "band_1" "EPSG:4326" 1).block_width
        * sampleArray.dtype.itemsize :=
  C6_payload_length sampleArray idAffine 0 0 "band_1" "EPSG:4326" 1 (by decide)

/-- C5 counterexample: a `1x1` `uint8` record with a 2-byte payload.
The byte length 2 is an exact multiple of
`block_height * block_width * itemsize = 1`, so the claim predicts
success, yet `record_to_array` fails with the shape-mismatch error
(numpy's reshape rejects 2 elements for a `(1, 1)` shape). -/
theorem C5_counterexample :
    doublePayloadRecord.payload.length
        % (doublePayloadRecord.block_height * doublePayloadRecord.block_width
            * NPDtype.uint8.itemsize) = 0
    ∧ record_to_array doublePayloadRecord none = .error .shapeMismatch := by
  refine ⟨by decide, by decide⟩

/-- C5 (amended): on a record whose resolved field name parses to dtype
`d` and matches the dynamic key, decoding without an explicit field name
fails with the shape-mismatch error exactly when the payload byte length
differs from `block_height * block_width * itemsize(d)` (not merely when
it is not a multiple of it), and succeeds exactly when they are equal;
in particular the `2x2` `int16` record with a 3-byte payload fails. -/
theorem C5_amended (record : Record) (d : NPDtype)
    (hd : parseDtype (lastToken record.attrs.value_field) = some d)
    (hkey : record.attrs.value_field = record.payload_key) :
    (record_to_array record none = .error .shapeMismatch
      ↔ record.payload.length
          ≠ record.block_height * record.block_width * d.itemsize)
    ∧ ((∃ a, record_to_array record none = .ok a)
      ↔ record.payload.length
          = record.block_height * record.block_width * d.itemsize) := by
  have hk := itemsize_pos d
  have hk0 : d.itemsize ≠ 0 := Nat.pos_iff_ne_zero.mp hk
  unfold record_to_array
  simp only [Option.getD_none]
  rw [hd]
  simp only []
  rw [show record.getPayload record.attrs.value_field = some record.payload from by
    unfold Record.getPayload
    rw [if_pos hkey]]
  simp only []
  by_cases h1 : record.payload.length % d.itemsize = 0
  · rw [if_neg (by simp [h1])]
    have hdvd : d.itemsize ∣ record.payload.length := Nat.dvd_of_mod_eq_zero h1
    have hflen : (frombufferElems d.itemsize record.payload).length
        = record.payload.length / d.itemsize :=
      frombufferElems_length d.itemsize hk0 _ hdvd
    by_cases h2 : record.payload.length / d.itemsize
        = record.block_height * record.block_width
    · rw [if_neg (by simp [hflen, h2])]
      have hn : record.payload.length
          = record.block_height * record.block_width * d.itemsize := by
        rw [← h2]
        exact (Nat.div_mul_cancel hdvd).symm
      constructor <;> simp [hn]
    · rw [if_pos (by rw [hflen]; exact h2)]
      have hne : record.payload.length
          ≠ record.block_height * record.block_width * d.itemsize := by
        intro he
        exact h2 (by rw [he, Nat.mul_div_cancel _ hk])
      constructor <;> simp [hne]
  · rw [if_pos h1]
    have hne : record.payload.length
        ≠ record.block_height * record.block_width * d.itemsize := by
      intro he
      rw [he] at h1
      exact h1 (Nat.mul_mod_left _ _)
    constructor <;> simp [hne]

/-- Witness for C5 at the spec's own scenario record (`2x2`, `int16`,
3-byte payload): the hypotheses hold and the decode fails with the
shape-mismatch error since `3 ≠ 2 * 2 * 2`. -/
theorem C5_amended_witness :
    ((record_to_array shortPayloadRecord none = .error .shapeMismatch
      ↔ shortPayloadRecord.payload.length
          ≠ shortPayloadRecord.block_height * shortPayloadRecord.block_width
            * NPDtype.int16.itemsize)
    ∧ ((∃ a, record_to_array shortPayloadRecord none = .ok a)
      ↔ shortPayloadRecord.payload.length
          = shortPayloadRecord.block_height * shortPayloadRecord.block_width
            * NPDtype.int16.itemsize))
    ∧ record_to_array shortPayloadRecord none = .error .shapeMismatch :=
  ⟨C5_amended shortPayloadRecord .int16 (by decide) (by decide), by decide⟩

/-- C7: for every corner transformer (abstracting the engine built for
any CRS pair) and every record, `reproject_record` leaves
`block_height`, `block_width`, `attrs`, and the dynamic payload entry
(key and bytes) unchanged; only the eight coordinate fields can change,
and the function's result is that updated record (the functional
rendering of the in-place mutation-and-return). -/
theorem C7_reprojection_isolation (T : ℚ → ℚ → ℚ × ℚ) (record : Record) :
    (reproject_record T record).block_height = record.block_height
    ∧ (reproject_record T record).block_width = record.block_width
    ∧ (reproject_record T record).attrs = record.attrs
    ∧ (reproject_record T record).payload_key = record.payload_key
    ∧ (reproject_record T record).payload = record.payload :=
  ⟨rfl, rfl, rfl, rfl, rfl⟩

/-- C8: with a positive `chunk_size = k`, the chunked orchestration
issues exactly `ceil(N/k) = (N + k - 1) / k` upload calls for `N`
records, every batch but the last carries exactly `k` records, the last
carries `N mod k` records (or `k` when `k` divides `N`), and an empty
source issues no upload at all. -/
theorem C8_chunking (k : Nat) (hk : 0 < k) (records : List Record) :
    (rasterio_to_bigquery_uploads k records).length = (records.length + k - 1) / k
    ∧ (∀ i, i + 1 < (rasterio_to_bigquery_uploads k records).length →
        ((rasterio_to_bigquery_uploads k records).getD i []).length = k)
    ∧ (records ≠ [] →
        ((rasterio_to_bigquery_uploads k records).getLastD []).length
          = if records.length % k = 0 then k else records.length % k)
    ∧ (records = [] → rasterio_to_bigquery_uploads k records = []) := by
  have he : rasterio_to_bigquery_uploads k records = chunksOf k records := by
    unfold rasterio_to_bigquery_uploads
    rw [chunkLoop_eq_chunksOf k hk records [] (by simpa using hk), List.nil_append]
  rw [he]
  refine ⟨chunksOf_length k hk records, chunksOf_getD k hk records,
    chunksOf_getLastD k hk records, fun h => ?_⟩
  rw [h, chunksOf, dif_pos (Or.inl rfl)]

/-- Witness for C8: three records with `chunk_size = 2` give
`ceil(3/2) = 2` upload calls. -/
theorem C8_chunking_witness :
    (rasterio_to_bigquery_uploads 2 [sampleRecord, sampleRecord, sampleRecord]).length
      = (([sampleRecord, sampleRecord, sampleRecord] : List Record).length + 2 - 1) / 2 :=
  (C8_chunking 2 (by decide) [sampleRecord, sampleRecord, sampleRecord]).1

/-- C9: when no CRS can be determined — the caller passed none (or an
empty string) and the raster's own CRS string is empty — the record
iteration fails with the missing-CRS error before yielding any record. -/
theorem C9_missing_crs (ds : RasterDataset) (reproj : String → ℚ → ℚ → ℚ × ℚ)
    (band : Int) (input_crs : Option String)
    (h1 : input_crs = none ∨ input_crs = some "")
    (h2 : ds.crs_string = "") :
    rasterio_windows_to_records ds reproj band input_crs = .error .missingCRS := by
  unfold rasterio_windows_to_records
  rcases h1 with h1 | h1 <;> subst h1 <;> simp [h2]

/-- Witness for C9 at a concrete dataset whose CRS string is empty. -/
theorem C9_missing_crs_witness :
    rasterio_windows_to_records noCRSDataset sampleReproj 1 none
      = .error .missingCRS :=
  C9_missing_crs noCRSDataset sampleReproj 1 none (Or.inl rfl) rfl

/-- C10: a yielded record is reprojected to `EPSG:4326` exactly when the
upper-cased effective input CRS differs from `"EPSG:4326"`; in
particular a lower-case `"epsg:4326"` is treated as already canonical
and the records are yielded unreprojected. -/
theorem C10_case_insensitive (ds : RasterDataset)
    (reproj : String → ℚ → ℚ → ℚ × ℚ) (band : Int) (s : String) (hs : s ≠ "") :
    rasterio_windows_to_records ds reproj band (some s)
      = .ok (ds.windows.map fun w =>
          if upperStr s = "EPSG:4326" then
            array_to_record (ds.readBand band w) ds.transform w.1 w.2 "band_1" s band
          else
            reproject_record (reproj s)
              (array_to_record (ds.readBand band w) ds.transform w.1 w.2 "band_1" s band))
    ∧ rasterio_windows_to_records ds reproj band (some "epsg:4326")
      = .ok (ds.windows.map fun w =>
          array_to_record (ds.readBand band w) ds.transform w.1 w.2
            "band_1" "epsg:4326" band) := by
  constructor
  · unfold rasterio_windows_to_records
    simp only []
    rw [if_neg hs]
    refine congrArg Except.ok (List.map_congr_left fun w _ => ?_)
    by_cases h : upperStr s = "EPSG:4326" <;> simp [h]
  · unfold rasterio_windows_to_records
    simp only []
    rw [if_neg (by decide : ¬("epsg:4326" : String) = "")]
    refine congrArg Except.ok (List.map_congr_left fun w _ => ?_)
    rw [if_neg (by decide : ¬upperStr "epsg:4326" ≠ "EPSG:4326")]

/-- Witness for C10 at a concrete dataset and the non-canonical CRS
string `"EPSG:26918"`. -/
theorem C10_case_insensitive_witness :
    rasterio_windows_to_records lowerCRSDataset sampleReproj 1 (some "EPSG:26918")
      = .ok (lowerCRSDataset.windows.map fun w =>
          if upperStr "EPSG:26918" = "EPSG:4326" then
            array_to_record (lowerCRSDataset.readBand 1 w) lowerCRSDataset.transform
              w.1 w.2 "band_1" "EPSG:26918" 1
          else
            reproject_record (sampleReproj "EPSG:26918")
              (array_to_record (lowerCRSDataset.readBand 1 w) lowerCRSDataset.transform
                w.1 w.2 "band_1" "EPSG:26918" 1)) :=
  (C10_case_insensitive lowerCRSDataset sampleReproj 1 "EPSG:26918" (by decide)).1
